import Mathlib

/-!
# Verification of cockpit-smb-zfs (src/app.tsx)

Shallow embedding of the client-side logic of the cockpit-smb-zfs plugin:
the `smbZfsApi` wrapper around the external `smb-zfs` CLI, the
`App.refreshState` normalization and error handling, the field validators
(`validateName`, `validateQuota`, `validatePassword`, `validateUserList`),
the `useValidation` form-state hook, and the modal save handlers
(`CreateUserModal.handleSave`, `ChangePasswordModal.handleSave`).

Strings are modelled as Lean `String`s; the character-level work is done on
`String.data` (`List Char`).  JavaScript semantics that matter here are
embedded explicitly: truthiness, `||` defaulting, `String.prototype` methods
restricted to the ASCII behaviour the code relies on, and the promise
handler control flow of `smbZfsApi.run` (including the fact that a `throw`
inside a `try` block is caught by the `catch` of that same block).
-/

namespace SmbZfs

/-! ## JavaScript string primitives used by app.tsx -/

/-- ECMAScript WhiteSpace ∪ LineTerminator, the set removed by
`String.prototype.trim`. -/
def isJsWhitespace (c : Char) : Bool :=
  c.val = 0x09 || c.val = 0x0A || c.val = 0x0B || c.val = 0x0C || c.val = 0x0D ||
  c.val = 0x20 || c.val = 0xA0 || c.val = 0x1680 ||
  (0x2000 ≤ c.val && c.val ≤ 0x200A) ||
  c.val = 0x2028 || c.val = 0x2029 || c.val = 0x202F || c.val = 0x205F ||
  c.val = 0x3000 || c.val = 0xFEFF

/-- `String.prototype.trim` on the character list. -/
def jsTrimList (l : List Char) : List Char :=
  (l.dropWhile isJsWhitespace).reverse.dropWhile isJsWhitespace |>.reverse

/-- `String.prototype.trim`. -/
def jsTrim (s : String) : String :=
  ⟨jsTrimList s.data⟩

/-- ASCII lower-casing, the fragment of `String.prototype.toLowerCase`
exercised by app.tsx (all case-insensitive comparisons there are against
pure-ASCII literals). -/
def jsToLowerChar (c : Char) : Char :=
  if 'A' ≤ c ∧ c ≤ 'Z' then Char.ofNat (c.toNat + 32) else c

/-- `String.prototype.toLowerCase` (ASCII fragment). -/
def jsToLower (s : String) : String :=
  ⟨s.data.map jsToLowerChar⟩

/-- ASCII upper-casing for a single character (`String.prototype.toUpperCase`
applied to `charAt(0)`). -/
def jsToUpperChar (c : Char) : Char :=
  if 'a' ≤ c ∧ c ≤ 'z' then Char.ofNat (c.toNat - 32) else c

/-- `itemType.charAt(0).toUpperCase() + itemType.slice(1)`. -/
def jsCapitalize (s : String) : String :=
  match s.data with
  | [] => ""
  | c :: r => ⟨jsToUpperChar c :: r⟩

/-- `String.prototype.split(',')` on the character list (a single-character
separator; JavaScript keeps empty fields). -/
def splitCommaList : List Char → List (List Char)
  | [] => [[]]
  | c :: rest =>
      if c = ',' then
        [] :: splitCommaList rest
      else
        match splitCommaList rest with
        | g :: gs => (c :: g) :: gs
        | [] => [[c]]

/-- `users.split(',')`. -/
def splitComma (s : String) : List String :=
  (splitCommaList s.data).map fun l => ⟨l⟩

/-- Substring search on character lists: `needle` occurs as a contiguous run
somewhere in `hay`. -/
def containsSubList (hay needle : List Char) : Bool :=
  match hay with
  | [] => needle.isEmpty
  | _ :: t => needle.isPrefixOf hay || containsSubList t needle

/-- `haystack.includes(needle)` (substring containment). -/
def jsIncludes (haystack needle : String) : Bool :=
  containsSubList haystack.data needle.data

/-- `s.startsWith(p)`. -/
def jsStartsWith (s p : String) : Bool :=
  p.data.isPrefixOf s.data

/-! ## Character classes of the validation regexes -/

def isAsciiLower (c : Char) : Bool := 'a' ≤ c && c ≤ 'z'
def isAsciiUpper (c : Char) : Bool := 'A' ≤ c && c ≤ 'Z'
def isAsciiDigit (c : Char) : Bool := '0' ≤ c && c ≤ '9'

/-- `[a-z_]`, the first character of a user/group/owner name. -/
def isNameHead (c : Char) : Bool := isAsciiLower c || c = '_'

/-- `[a-z0-9_-]`, the remaining characters of a user/group/owner name. -/
def isNameTail (c : Char) : Bool :=
  isAsciiLower c || isAsciiDigit c || c = '_' || c = '-'

/-- `[a-zA-Z0-9]`. -/
def isAlnum (c : Char) : Bool := isAsciiLower c || isAsciiUpper c || isAsciiDigit c

/-- `[a-zA-Z0-9_.\-:]`, the tail class of the share-name regex. -/
def isShareTail (c : Char) : Bool :=
  isAlnum c || c = '_' || c = '.' || c = '-' || c = ':'

/-- `[A-Za-z0-9-]`, the NetBIOS name class. -/
def isNetbiosChar (c : Char) : Bool := isAlnum c || c = '-'

/-- `[a-zA-Z0-9._-]`, the default branch class. -/
def isDefaultNameChar (c : Char) : Bool :=
  isAlnum c || c = '.' || c = '_' || c = '-'

/-- `[._\-:]`, the separators used for the share-name component check. -/
def isShareSep (c : Char) : Bool := c = '.' || c = '_' || c = '-' || c = ':'

/-- `[kmgtpez]` with the `i` flag: a quota unit letter. -/
def isUnitChar (c : Char) : Bool :=
  let l := jsToLowerChar c
  l = 'k' || l = 'm' || l = 'g' || l = 't' || l = 'p' || l = 'e' || l = 'z'

/-! ## Regex matchers (one decidable function per regex literal) -/

/-- `/^[a-z_][a-z0-9_-]{0,31}$/.test(name)`. -/
def matchUserGroupOwner (s : String) : Bool :=
  match s.data with
  | [] => false
  | c :: r => isNameHead c && r.all isNameTail && r.length ≤ 31

/-- `/^[a-zA-Z0-9][a-zA-Z0-9_.\-:]{0,79}$/.test(name)`. -/
def matchShareShape (s : String) : Bool :=
  match s.data with
  | [] => false
  | c :: r => isAlnum c && r.all isShareTail && r.length ≤ 79

/-- `name.split(/[._\-:]/)` on the character list. -/
def splitShareSeps : List Char → List (List Char)
  | [] => [[]]
  | c :: rest =>
      if isShareSep c then
        [] :: splitShareSeps rest
      else
        match splitShareSeps rest with
        | g :: gs => (c :: g) :: gs
        | [] => [[c]]

/-- `name.split(/[._\-:]/).some(component => component === "")`. -/
def shareHasEmptyComponent (s : String) : Bool :=
  (splitShareSeps s.data).any fun l => l.isEmpty

/-- `/^(?!-)[A-Za-z0-9-]{1,15}(?<!-)$/.test(name)`: 1–15 characters from
`[A-Za-z0-9-]`, with no leading and no trailing hyphen. -/
def matchNetbios (s : String) : Bool :=
  let l := s.data
  !l.isEmpty && l.length ≤ 15 && l.all isNetbiosChar &&
    (match l with | [] => false | c :: _ => c ≠ '-') &&
    (match l.getLast? with | none => false | some c => c ≠ '-')

/-- `/^[a-zA-Z0-9._-]+$/.test(name)`. -/
def matchDefaultName (s : String) : Bool :=
  !s.data.isEmpty && s.data.all isDefaultNameChar

/-- The optional trailing unit letter `[kmgtpez]?$` (with the `i` flag). -/
def matchUnitOpt : List Char → Bool
  | [] => true
  | [u] => isUnitChar u
  | _ => false

/-- What may follow the leading digit run of the quota regex:
`(?:\.\d+)?[kmgtpez]?$`. -/
def matchQuotaTail : List Char → Bool
  | [] => true
  | c :: r =>
      if c = '.' then
        !(r.takeWhile isAsciiDigit).isEmpty && matchUnitOpt (r.dropWhile isAsciiDigit)
      else matchUnitOpt (c :: r)

/-- The numeric alternative of the quota regex,
`^\d+(?:\.\d+)?[kmgtpez]?$` with the `i` flag, on the character list. -/
def matchQuotaNumList (l : List Char) : Bool :=
  let ds := l.takeWhile isAsciiDigit
  let rest := l.dropWhile isAsciiDigit
  !ds.isEmpty && matchQuotaTail rest

/-- `/^none$|^\d+(?:\.\d+)?[kmgtpez]?$/i.test(quota)`. -/
def matchQuota (s : String) : Bool :=
  jsToLower s = "none" || matchQuotaNumList s.data

/-! ## Validation results and validators (src/app.tsx, "Validation utilities") -/

/-- The `ValidationResult` interface: `{ isValid: boolean; error?: string }`. -/
structure ValidationResult where
  isValid : Bool
  error : Option String := none
  deriving DecidableEq, Repr

/-- `validateName(name, itemType)` from src/app.tsx. -/
def validateName (name : String) (itemType : String) : ValidationResult :=
  if name = "" then
    { isValid := false, error := some (itemType ++ " name is required.") }
  else
    -- the source binds `itemTypeLower = itemType.toLowerCase()`; it is
    -- inlined here as `jsToLower itemType`
    if jsToLower itemType = "user" ∨ jsToLower itemType = "group" ∨ jsToLower itemType = "owner" then
      if !matchUserGroupOwner name then
        { isValid := false
          error := some (jsCapitalize itemType ++ " name '" ++ name ++
            "' is invalid. Must be lowercase, start with letter/underscore, max 32 chars.") }
      else { isValid := true }
    else if jsToLower itemType = "share" then
      if !matchShareShape name || shareHasEmptyComponent name then
        { isValid := false
          error := some ("Share name '" ++ name ++
            "' is invalid. Must start with letter/number, no empty components, max 80 chars.") }
      else { isValid := true }
    else if jsToLower itemType = "server_name" ∨ jsToLower itemType = "workgroup" then
      if !matchNetbios name then
        { isValid := false
          error := some (jsCapitalize itemType ++ " name '" ++ name ++
            "' is invalid. 1-15 chars, no leading/trailing hyphens.") }
      else { isValid := true }
    else
      if !matchDefaultName name then
        { isValid := false
          error := some (jsCapitalize itemType ++ " name '" ++ name ++
            "' contains invalid characters.") }
      else { isValid := true }

/-- `validateQuota(quota)` from src/app.tsx. -/
def validateQuota (quota : String) : ValidationResult :=
  if quota = "" then
    { isValid := true }
  else if !matchQuota quota then
    { isValid := false
      error := some "Quota must be 'none' or numeric value with optional unit (e.g., 512M, 120G, 1.5T)" }
  else
    { isValid := true }

/-- `validatePassword(password, confirm?)` from src/app.tsx; `confirm = none`
models the call without the optional argument (`confirm === undefined`). -/
def validatePassword (password : String) (confirm : Option String) : ValidationResult :=
  if password = "" then
    { isValid := false, error := some "Password is required." }
  else
    match confirm with
    | some c =>
        if password ≠ c then
          { isValid := false, error := some "Passwords do not match." }
        else { isValid := true }
    | none => { isValid := true }

/-- The entry list built by `validateUserList`:
`users.split(',').map(u => u.trim()).filter(u => u)`. -/
def userListEntries (users : String) : List String :=
  ((splitComma users).map jsTrim).filter fun u => u ≠ ""

/-- The stripped name of one entry: the entry without a single leading `@`
when it has one (`user.slice(1)`), the entry itself otherwise. -/
def entryName (u : String) : String :=
  if jsStartsWith u "@" then ⟨u.data.drop 1⟩ else u

/-- The item type of one entry: `group` when it starts with `@`, else `user`. -/
def entryType (u : String) : String :=
  if jsStartsWith u "@" then "group" else "user"

/-- The `for (const user of userList)` loop of `validateUserList`: validate
each entry in order and stop at the first failure (the source binds the
result as `const validation = validateName(...)`; it is inlined here). -/
def validateUserListLoop : List String → ValidationResult
  | [] => { isValid := true }
  | u :: rest =>
      if (validateName (entryName u) (entryType u)).isValid then
        validateUserListLoop rest
      else
        { isValid := false
          error := some ("Invalid " ++ entryType u ++ " in list: " ++
            (validateName (entryName u) (entryType u)).error.getD "") }

/-- `validateUserList(users)` from src/app.tsx. -/
def validateUserList (users : String) : ValidationResult :=
  if users = "" then { isValid := true }
  else validateUserListLoop (userListEntries users)

/-! ## JSON values and JavaScript truthiness -/

/-- JSON values as produced by `JSON.parse` (numbers kept abstract as
integers; none of the embedded code computes with them). -/
inductive Json where
  | null : Json
  | bool : Bool → Json
  | num : Int → Json
  | str : String → Json
  | arr : List Json → Json
  | obj : List (String × Json) → Json

/-- JavaScript truthiness of a defined value. -/
def jsTruthy : Json → Bool
  | .null => false
  | .bool b => b
  | .num n => n ≠ 0
  | .str s => s ≠ ""
  | .arr _ => true
  | .obj _ => true

/-- Truthiness of a possibly-`undefined` value (`none` = `undefined`). -/
def jsTruthyOpt : Option Json → Bool
  | none => false
  | some j => jsTruthy j

/-- Property access `o.k` on a JSON value: `undefined` (`none`) unless `o` is
an object with a field named `k` (first occurrence wins, as in `JSON.parse`
output where duplicate keys have already been collapsed). -/
def Json.getF : Json → String → Option Json
  | .obj fields, k => fields.lookup k
  | _, _ => none

/-- Optional chaining `data?.k` where `data` itself may be `undefined`. -/
def getFOpt (data : Option Json) (k : String) : Option Json :=
  match data with
  | none => none
  | some j => j.getF k

/-- `x || d` for a possibly-`undefined` `x`: the JavaScript or-default. -/
def jsOrDefault (x : Option Json) (d : Json) : Json :=
  match x with
  | some j => if jsTruthy j then j else d
  | none => d

/-- `Array.isArray`. -/
def Json.isArr : Json → Bool
  | .arr _ => true
  | _ => false

/-! ## `smbZfsApi.run` (current variant, src/app.tsx lines 125–145)

`cockpit.spawn` itself is the browser/bridge boundary; what the repository
owns is the `.then` handler applied to the output string of the child.  The
handler is embedded as a function of that output, parameterized by the
platform builtin `JSON.parse` (modelled as `parse : String → Option Json`,
`none` meaning the parse throws).  A settled promise is either fulfilled or
rejected: -/

/-- How the promise returned by `smbZfsApi.run` settles. -/
inductive RunOutcome where
  | fulfilledNull : RunOutcome
  | fulfilledJson : Json → RunOutcome
  | fulfilledStr : String → RunOutcome
  | rejected : String → RunOutcome

/-- `output.toLowerCase().startsWith("error:")`. -/
def looksLikeErrorLine (output : String) : Bool :=
  jsStartsWith (jsToLower output) "error:"

/-- The `.then` handler of `smbZfsApi.run` (current variant).  Note the
control flow of the source: the `throw new Error(result.error)` sits inside
the `try` block, so it is intercepted by the `catch` of that same block, which
then re-dispatches on the raw output text. -/
def runThen (parse : String → Option Json) (output : String) : RunOutcome :=
  if output = "" then .fulfilledNull
  else
    match parse output with
    | some result =>
        if jsTruthyOpt (result.getF "error") then
          -- the Error thrown here lands in the catch below
          if looksLikeErrorLine output then .rejected output
          else .fulfilledStr output
        else .fulfilledJson result
    | none =>
        if looksLikeErrorLine output then .rejected output
        else .fulfilledStr output

/-- The `.then` handler of the older `smbZfsApi.run` variant (second
document in src/app.tsx): same `try`/`catch` shape, but the fallthrough
rejects with `"An unexpected error occurred: " + output`. -/
def runThenOld (parse : String → Option Json) (output : String) : RunOutcome :=
  match parse output with
  | some result =>
      if jsTruthyOpt (result.getF "error") then
        if looksLikeErrorLine output then .rejected output
        else .rejected ("An unexpected error occurred: " ++ output)
      else .fulfilledJson result
  | none =>
      if looksLikeErrorLine output then .rejected output
      else .rejected ("An unexpected error occurred: " ++ output)

/-- `["create", "modify", "delete", "passwd"].includes(command[0])`
(`command[0]` of an empty array is `undefined`, which is not in the list). -/
def isMutating (command : List String) : Bool :=
  match command with
  | [] => false
  | c :: _ => c = "create" || c = "modify" || c = "delete" || c = "passwd"

/-- The spawn options passed by `smbZfsApi.run`:
`mutating ? { superuser: "require" } : undefined`. -/
def runSuperuserOption (command : List String) : Option String :=
  if isMutating command then some "require" else none

/-- The argv passed by `smbZfsApi.run`: `["smb-zfs", ...command, "--json"]`. -/
def runSpawnArgv (command : List String) : List String :=
  "smb-zfs" :: command ++ ["--json"]

/-! ## `App.refreshState` (src/app.tsx lines 157–185) -/

/-- The normalized state stored by the success path of `refreshState`.  Fields
that the source passes through unchanged keep the dynamic `Json` type;
`initialized` and `macos_optimized` are coerced with `Boolean(...)`. -/
structure NormalizedState where
  initialized : Bool
  primary_pool : Json
  secondary_pools : Json
  server_name : Json
  workgroup : Json
  macos_optimized : Bool
  default_home_quota : Json
  users : Json
  groups : Json
  shares : Json

/-- The `normalized` object built in `refreshState.then` from the value
`data` resolved by `smbZfsApi.getState()`. -/
def normalizeState (data : Option Json) : NormalizedState where
  initialized := jsTruthyOpt (getFOpt data "initialized")
  primary_pool := jsOrDefault (getFOpt data "primary_pool") (.str "")
  secondary_pools :=
    match getFOpt data "secondary_pools" with
    | some j => if j.isArr then j else .arr []
    | none => .arr []
  server_name := jsOrDefault (getFOpt data "server_name") (.str "")
  workgroup := jsOrDefault (getFOpt data "workgroup") (.str "")
  macos_optimized := jsTruthyOpt (getFOpt data "macos_optimized")
  default_home_quota := jsOrDefault (getFOpt data "default_home_quota") (.str "")
  users := jsOrDefault (getFOpt data "users") (.obj [])
  groups := jsOrDefault (getFOpt data "groups") (.obj [])
  shares := jsOrDefault (getFOpt data "shares") (.obj [])

/-- The fallback state stored by `refreshState.catch` when the rejection
message contains `"not initialized"`:
`{ initialized: false, secondary_pools: [], users: {}, groups: {}, shares: {} }`
(the remaining fields of the `State` interface are left `undefined`). -/
structure FallbackState where
  initialized : Bool
  secondary_pools : List Json
  users : List (String × Json)
  groups : List (String × Json)
  shares : List (String × Json)

/-- What `App` keeps in its `state` slot after a refresh. -/
inductive AppStateSlot where
  | noData : AppStateSlot                       -- `state === null`
  | normal : NormalizedState → AppStateSlot     -- success path
  | fallback : FallbackState → AppStateSlot     -- "not initialized" path

/-- `initialized` as the render path reads it (`state.initialized`). -/
def AppStateSlot.initializedFlag : AppStateSlot → Bool
  | .noData => false
  | .normal s => s.initialized
  | .fallback s => s.initialized

/-- The `App` component state that the render function dispatches on. -/
structure AppRenderState where
  state : AppStateSlot
  error : Option String
  loading : Bool

/-- The `.catch` handler of `refreshState` applied to a rejection whose
`message` is `msg` and whose `String(err)` rendering is `errStr`, starting
from the component state `prev`; the `.finally` clears `loading`. -/
def refreshCatch (prev : AppRenderState) (msg errStr : String) : AppRenderState :=
  if jsIncludes msg "not initialized" then
    { prev with
      state := .fallback
        { initialized := false, secondary_pools := [], users := [], groups := [], shares := [] }
      error := none
      loading := false }
  else
    { prev with
      error := some (if msg ≠ "" then msg else errStr)
      loading := false }

/-- The `.then` handler of `refreshState` applied to the resolved
`get-state` value, followed by the `.finally`. -/
def refreshThen (prev : AppRenderState) (data : Option Json) : AppRenderState :=
  { prev with state := .normal (normalizeState data), error := none, loading := false }

/-- The screens the `App` render function can choose between. -/
inductive Screen where
  | spinner : Screen
  | errorAlert : String → Screen
  | noData : Screen
  | initialSetup : Screen
  | mainTabs : Screen
  deriving DecidableEq, Repr

/-- The render branches of `App` after the `if (error)` guard fails. -/
def renderAppNoError (s : AppRenderState) : Screen :=
  match s.state with
  | .noData => .noData
  | st => if !st.initializedFlag then .initialSetup else .mainTabs

/-- The top-level render dispatch of `App` (src/app.tsx lines 209–248):
loading, then error, then missing state, then uninitialized, then the tabs.
`if (error)` is a truthiness test, so a stored empty string falls through. -/
def renderApp (s : AppRenderState) : Screen :=
  if s.loading then .spinner
  else
    match s.error with
    | some e => if e ≠ "" then .errorAlert e else renderAppNoError s
    | none => renderAppNoError s

/-! ## The `useValidation` hook (src/app.tsx lines 2007–2040) -/

/-- The three `useState` slots of one `useValidation` instance. -/
structure HookState where
  value : String
  validation : ValidationResult
  touched : Bool
  deriving DecidableEq, Repr

/-- The initial hook state: `validation = { isValid: true }`, untouched. -/
def hookInit (initialValue : String) : HookState :=
  { value := initialValue, validation := { isValid := true }, touched := false }

/-- `handleChange(newValue)`: store the value, mark touched, re-validate. -/
def hookChange (validator : String → ValidationResult) (s : HookState)
    (v : String) : HookState :=
  { s with value := v, validation := validator v, touched := true }

/-- `handleBlur()`: mark touched and re-validate the current value. -/
def hookBlur (validator : String → ValidationResult) (s : HookState) : HookState :=
  { s with validation := validator s.value, touched := true }

/-- `setValue(v)`: the raw setter the hook also exposes (no validation). -/
def hookSet (s : HookState) (v : String) : HookState :=
  { s with value := v }

/-- The `isValid` field the hook returns. -/
def HookState.isValidExposed (s : HookState) : Bool :=
  s.validation.isValid

/-- The `error` field the hook returns:
`touched ? validation.error : undefined`. -/
def HookState.errorExposed (s : HookState) : Option String :=
  if s.touched then s.validation.error else none

/-- The operations a component can perform on one hook instance. -/
inductive HookOp where
  | change (v : String) : HookOp
  | blur : HookOp
  | set (v : String) : HookOp

/-- One hook operation applied to the hook state. -/
def hookStep (validator : String → ValidationResult) (s : HookState) :
    HookOp → HookState
  | .change v => hookChange validator s v
  | .blur => hookBlur validator s
  | .set v => hookSet s v

/-- A sequence of hook operations from the initial state. -/
def hookRun (validator : String → ValidationResult) (initialValue : String)
    (ops : List HookOp) : HookState :=
  ops.foldl (hookStep validator) (hookInit initialValue)

/-! ## Spawn calls and the modal save handlers -/

/-- One `cockpit.spawn` invocation as issued by the plugin. -/
structure SpawnCall where
  argv : List String
  superuser : Option String
  stdin : Option String
  deriving DecidableEq, Repr

/-! ### `CreateUserModal` (src/app.tsx lines 660–760) -/

/-- The form state `handleSave` reads: three `useValidation` hooks and two
checkboxes. -/
structure CreateUserForm where
  userName : HookState
  password : HookState
  groups : HookState
  shell : Bool
  noHome : Bool

/-- `isFormValid()` of `CreateUserModal`:
`userName.isValid && password.isValid && groups.isValid && userName.value`. -/
def createUserFormValid (f : CreateUserForm) : Bool :=
  f.userName.isValidExposed && f.password.isValidExposed &&
  f.groups.isValidExposed && f.userName.value ≠ ""

/-- The `command` array built by `CreateUserModal.handleSave` through its
conditional `push` calls. -/
def createUserCommand (f : CreateUserForm) : List String :=
  ["create", "user", f.userName.value] ++
  (if f.password.value ≠ "" then ["--password", f.password.value] else []) ++
  (if f.shell then ["--shell"] else []) ++
  (if f.groups.value ≠ "" then ["--groups", f.groups.value] else []) ++
  (if f.noHome then ["--no-home"] else [])

/-- `CreateUserModal.handleSave`: bail out unless the form is valid, then
hand the command to `smbZfsApi.run`, which spawns
`["smb-zfs", ...command, "--json"]` with its superuser rule. -/
def createUserHandleSave (f : CreateUserForm) : Option SpawnCall :=
  if createUserFormValid f then
    let command := createUserCommand f
    some { argv := runSpawnArgv command
           superuser := runSuperuserOption command
           stdin := none }
  else none

/-! ### `ChangePasswordModal` (src/app.tsx lines 924–1010)

The component owns two `useValidation` hooks and a `loading` flag.  The
validator of the confirm hook is the render-scoped closure
`(value) => validatePassword(value, password.value)`.  When the password
input changes, the component re-validates the confirm field — but inside
that same event handler `password.value` is still the value of the current
render, i.e. the password *before* the edit. -/

/-- The component state of `ChangePasswordModal`. -/
structure CPState where
  password : HookState
  confirm : HookState
  loading : Bool
  deriving DecidableEq, Repr

/-- Both hooks start from `useValidation` with the empty initial value. -/
def cpInit : CPState :=
  { password := hookInit "", confirm := hookInit "", loading := false }

/-- The validator of the password hook: `validatePassword` without the
optional argument. -/
def pwValidator (v : String) : ValidationResult :=
  validatePassword v none

/-- The validator of the confirm hook for the password value of one render. -/
def confirmValidator (renderPw : String) (v : String) : ValidationResult :=
  validatePassword v (some renderPw)

/-- The UI events of `ChangePasswordModal` that touch this state. -/
inductive CPEvent where
  | pwChange (v : String) : CPEvent
  | confirmChange (v : String) : CPEvent
  | pwBlur : CPEvent
  | confirmBlur : CPEvent
  | loadStart : CPEvent
  | loadEnd : CPEvent

/-- One event applied to the component state.  In `pwChange`, the
re-validation `confirm.handleChange(confirm.value)` runs in the handler of
the render whose `password.value` is still the pre-edit password. -/
def cpStep (s : CPState) : CPEvent → CPState
  | .pwChange v =>
      let renderPw := s.password.value
      { s with
        password := hookChange pwValidator s.password v
        confirm :=
          if s.confirm.touched then
            hookChange (confirmValidator renderPw) s.confirm s.confirm.value
          else s.confirm }
  | .confirmChange v =>
      { s with confirm := hookChange (confirmValidator s.password.value) s.confirm v }
  | .pwBlur =>
      { s with password := hookBlur pwValidator s.password }
  | .confirmBlur =>
      { s with confirm := hookBlur (confirmValidator s.password.value) s.confirm }
  | .loadStart => { s with loading := true }
  | .loadEnd => { s with loading := false }

/-- The component state after a sequence of events. -/
def cpRun (evs : List CPEvent) : CPState :=
  evs.foldl cpStep cpInit

/-- `isFormValid()` of `ChangePasswordModal`:
`password.isValid && confirm.isValid && password.value && password.value === confirm.value`. -/
def cpFormValid (s : CPState) : Bool :=
  s.password.isValidExposed && s.confirm.isValidExposed &&
  s.password.value ≠ "" && s.password.value = s.confirm.value

/-- The Set Password button: `isDisabled={loading || !isFormValid()}`. -/
def cpEnabled (s : CPState) : Bool :=
  !s.loading && cpFormValid s

/-- `ChangePasswordModal.handleSave`: bail out unless the form is valid,
then spawn `["smb-zfs", "passwd", user, "--json"]` as superuser and write
`password.value + "\n" + password.value + "\n"` to its stdin. -/
def cpHandleSave (s : CPState) (user : String) : Option SpawnCall :=
  if cpFormValid s then
    some { argv := ["smb-zfs", "passwd", user, "--json"]
           superuser := some "require"
           stdin := some (s.password.value ++ "\n" ++ s.password.value ++ "\n") }
  else none

/-! ### C1: the error field of a parsed JSON result is swallowed -/

/-- A concrete child output: a JSON object with a truthy `error` field. -/
def c1Output : String := "\x7b\"error\": \"Something failed\"\x7d"

/-- The error string carried by that output. -/
def c1Error : String := "Something failed"

/-- The value `JSON.parse` produces for `c1Output`. -/
def c1Json : Json := .obj [("error", .str c1Error)]

/-- The platform builtin `JSON.parse`, modelled at the single output the
counterexample needs. -/
def c1Parse (s : String) : Option Json :=
  if s = c1Output then some c1Json else none

/-- A `get-state` value whose `users` field is present but `null`. -/
def c7Data : Json := .obj [("initialized", .bool true), ("users", .null)]


/-- Event sequence: type password `x`, type confirm `y`, then retype the
password as `y`.  The re-validation of the confirm field triggered by the
last edit compares against the pre-edit password `x`, so the stored confirm
verdict stays invalid although both fields now hold `y`. -/
def cpCexEvents : List CPEvent := [.pwChange "x", .confirmChange "y", .pwChange "y"]

/-! ## Theorems -/

/-- C9: `smbZfsApi.run` passes `{ superuser: "require" }` to `cockpit.spawn`
exactly when the first element of the command list is one of `create`,
`modify`, `delete`, `passwd`; every other command — including `setup`,
`get-state` and `list`, and the empty command — is spawned without a
superuser option. -/
theorem run_superuser_option_iff (command : List String) :
    (runSuperuserOption command = some "require" ↔
      ∃ c rest, command = c :: rest ∧
        (c = "create" ∨ c = "modify" ∨ c = "delete" ∨ c = "passwd")) ∧
    (∀ c rest, command = c :: rest →
      ¬(c = "create" ∨ c = "modify" ∨ c = "delete" ∨ c = "passwd") →
      runSuperuserOption command = none) ∧
    (command = [] → runSuperuserOption command = none) := by
  unfold runSuperuserOption isMutating
  cases command with
  | nil => simp
  | cons c rest =>
    by_cases h : c = "create" ∨ c = "modify" ∨ c = "delete" ∨ c = "passwd"
    · have hb : (c = "create" || c = "modify" || c = "delete" || c = "passwd") = true := by
        rcases h with h | h | h | h <;> simp [h]
      refine ⟨?_, ?_, ?_⟩
      · rw [if_pos hb]
        exact iff_of_true rfl ⟨c, rest, rfl, h⟩
      · intro c' rest' heq habs
        cases heq
        exact absurd h habs
      · intro habs; cases habs
    · have hb : (c = "create" || c = "modify" || c = "delete" || c = "passwd") = false := by
        push_neg at h
        simp [h.1, h.2.1, h.2.2.1, h.2.2.2]
      refine ⟨?_, ?_, ?_⟩
      · rw [if_neg (by simp [hb])]
        constructor
        · intro habs; cases habs
        · rintro ⟨c', rest', hceq, hc⟩
          cases hceq
          exact absurd hc h
      · intro _ _ _ _
        rw [if_neg (by simp [hb])]
      · intro habs; cases habs

/-- C9 witness: `get-state` and `list` run without the superuser option,
`create user …` runs with `superuser: "require"`. -/
theorem run_superuser_option_iff_witness :
    runSuperuserOption ["get-state"] = none ∧
    runSuperuserOption ["list", "pools"] = none ∧
    runSuperuserOption ["create", "user", "bob"] = some "require" :=
  ⟨(run_superuser_option_iff ["get-state"]).2.1 "get-state" [] rfl (by decide),
   (run_superuser_option_iff ["list", "pools"]).2.1 "list" ["pools"] rfl (by decide),
   (run_superuser_option_iff ["create", "user", "bob"]).1.mpr
     ⟨"create", ["user", "bob"], rfl, Or.inl rfl⟩⟩

/-- C6: when the Create User form is valid, Save spawns exactly
`smb-zfs create user <name>`, then `--password <pw>` iff the password is
non-empty, `--shell` iff the shell checkbox is set, `--groups <g>` iff the
groups field is non-empty, `--no-home` iff the no-home checkbox is set, and
finally the `--json` appended by `smbZfsApi.run`, with
`superuser: "require"` and nothing else. -/
theorem createUser_save_command (f : CreateUserForm)
    (h : createUserFormValid f = true) :
    createUserHandleSave f = some
      { argv := ["smb-zfs", "create", "user", f.userName.value] ++
          (if f.password.value ≠ "" then ["--password", f.password.value] else []) ++
          (if f.shell then ["--shell"] else []) ++
          (if f.groups.value ≠ "" then ["--groups", f.groups.value] else []) ++
          (if f.noHome then ["--no-home"] else []) ++ ["--json"]
        superuser := some "require"
        stdin := none } := by
  unfold createUserHandleSave
  rw [if_pos h]
  unfold runSpawnArgv runSuperuserOption isMutating createUserCommand
  simp [List.append_assoc]

/-- C6 witness: a concrete valid form produces the exact argument list. -/
theorem createUser_save_command_witness :
    createUserHandleSave
      { userName := { value := "bob", validation := { isValid := true }, touched := true }
        password := { value := "pw", validation := { isValid := true }, touched := true }
        groups := { value := "", validation := { isValid := true }, touched := false }
        shell := true
        noHome := false } = some
      { argv := ["smb-zfs", "create", "user", "bob", "--password", "pw", "--shell", "--json"]
        superuser := some "require"
        stdin := none } :=
  (createUser_save_command _ (by decide)).trans (by decide)

/-- Helper: a run consisting only of `setValue` operations never changes the
`touched` flag or the stored validation result. -/
lemma foldl_hookStep_sets_only (validator : String → ValidationResult)
    (s : HookState) (ops : List HookOp)
    (hops : ∀ op ∈ ops, ∃ v, op = HookOp.set v) :
    (ops.foldl (hookStep validator) s).touched = s.touched ∧
    (ops.foldl (hookStep validator) s).validation = s.validation := by
  induction ops generalizing s with
  | nil => exact ⟨rfl, rfl⟩
  | cons op rest ih =>
    obtain ⟨v, rfl⟩ := hops op (List.mem_cons_self _ _)
    have h := ih (hookStep validator s (.set v))
      (fun o ho => hops o (List.mem_cons_of_mem _ ho))
    simpa [hookStep, hookSet] using h

/-- C10: a `useValidation` instance starts untouched with `isValid = true`
and no exposed error — whatever the validator would say about the initial
value, and even after raw `setValue` updates; after `handleChange v` the
exposed `isValid` is exactly `validator(v).isValid`; and the exposed error
is non-`undefined` only when the field is touched. -/
theorem useValidation_initial_and_change
    (validator : String → ValidationResult) (initialValue : String) :
    ((hookInit initialValue).touched = false ∧
     (hookInit initialValue).isValidExposed = true ∧
     (hookInit initialValue).errorExposed = none) ∧
    (∀ ops : List HookOp, (∀ op ∈ ops, ∃ v, op = HookOp.set v) →
      (hookRun validator initialValue ops).touched = false ∧
      (hookRun validator initialValue ops).isValidExposed = true ∧
      (hookRun validator initialValue ops).errorExposed = none) ∧
    (∀ s v, (hookStep validator s (.change v)).isValidExposed = (validator v).isValid) ∧
    (∀ s : HookState, s.errorExposed ≠ none → s.touched = true) := by
  refine ⟨⟨rfl, rfl, rfl⟩, ?_, fun s v => rfl, ?_⟩
  · intro ops hops
    have h := foldl_hookStep_sets_only validator (hookInit initialValue) ops hops
    unfold hookRun
    refine ⟨h.1, ?_, ?_⟩
    · show (ops.foldl (hookStep validator) (hookInit initialValue)).validation.isValid = true
      rw [h.2]
      rfl
    · show HookState.errorExposed _ = none
      unfold HookState.errorExposed
      rw [h.1]
      rfl
  · intro s h
    unfold HookState.errorExposed at h
    cases ht : s.touched with
    | true => rfl
    | false => rw [ht] at h; simp at h

/-- C10 witness: with a validator that rejects everything (in particular the
initial value) and a raw `setValue`, the hook still exposes no error and
`isValid = true`; a `handleChange` then adopts the verdict of the validator. -/
theorem useValidation_initial_and_change_witness :
    (hookRun (fun _ => { isValid := false, error := some "bad" }) "oops"
      [HookOp.set "x"]).errorExposed = none ∧
    (hookStep (fun _ => { isValid := false, error := some "bad" }) (hookInit "oops")
      (.change "z")).isValidExposed = false :=
  ⟨((useValidation_initial_and_change (fun _ => { isValid := false, error := some "bad" })
      "oops").2.1 [HookOp.set "x"]
      (by intro op hop; rw [List.mem_singleton] at hop; exact ⟨"x", hop⟩)).2.2,
   (useValidation_initial_and_change (fun _ => { isValid := false, error := some "bad" })
      "oops").2.2.1 (hookInit "oops") "z"⟩

/-- `containsSubList` decides substring containment: it is true exactly when
`needle` is a contiguous infix of `hay`. -/
lemma containsSubList_correct (hay needle : List Char) :
    containsSubList hay needle = true ↔ needle <:+: hay := by
  induction hay with
  | nil => simp [containsSubList, List.isEmpty_iff, List.infix_nil]
  | cons a t ih =>
    simp [containsSubList, Bool.or_eq_true, ih, List.infix_cons_iff,
      List.isPrefixOf_iff_prefix]

/-- C2: when `smbZfsApi.getState` rejects with a message containing the
substring `"not initialized"`, `refreshState` stores the fallback state with
`initialized = false` and clears the error, so the initial-setup screen is
rendered; for any other (non-empty) message, the message is stored and the
error alert is rendered instead. -/
theorem refreshState_catch_dispatch (prev : AppRenderState) (msg errStr : String) :
    ("not initialized".data <:+: msg.data →
      (refreshCatch prev msg errStr).error = none ∧
      (∃ fb, (refreshCatch prev msg errStr).state = .fallback fb ∧
        fb.initialized = false) ∧
      renderApp (refreshCatch prev msg errStr) = .initialSetup) ∧
    (¬ "not initialized".data <:+: msg.data → msg ≠ "" →
      (refreshCatch prev msg errStr).error = some msg ∧
      renderApp (refreshCatch prev msg errStr) = .errorAlert msg) := by
  constructor
  · intro h
    have hb : jsIncludes msg "not initialized" = true :=
      (containsSubList_correct _ _).mpr h
    unfold refreshCatch
    rw [if_pos hb]
    refine ⟨rfl, ⟨_, rfl, rfl⟩, ?_⟩
    unfold renderApp renderAppNoError
    simp [AppStateSlot.initializedFlag]
  · intro h hne
    have hb : jsIncludes msg "not initialized" = false :=
      Bool.eq_false_iff.mpr fun hc => h ((containsSubList_correct _ _).mp hc)
    unfold refreshCatch
    rw [if_neg (by simp [hb])]
    constructor
    · simp [hne]
    · unfold renderApp
      simp [hne]

/-- C2 witness: a "not initialized" rejection renders the setup screen; a
plain failure message renders the error alert with that message. -/
theorem refreshState_catch_dispatch_witness :
    renderApp (refreshCatch { state := .noData, error := none, loading := true }
      "smb-zfs is not initialized. Run setup first." "E") = .initialSetup ∧
    renderApp (refreshCatch { state := .noData, error := none, loading := true }
      "boom" "E") = .errorAlert "boom" :=
  ⟨((refreshState_catch_dispatch _ _ _).1 (by decide)).2.2,
   ((refreshState_catch_dispatch _ _ _).2 (by decide) (by decide)).2⟩

/-- A string whose right append operand is non-empty is non-empty. -/
lemma append_ne_empty_right (a b : String) (hb : b ≠ "") : a ++ b ≠ "" := by
  intro h
  apply hb
  have hd := congrArg String.data h
  rw [String.data_append] at hd
  apply String.ext
  exact (List.append_eq_nil.mp hd).2

/-- The head class `[a-z_]` is contained in the tail class `[a-z0-9_-]`. -/
lemma isNameTail_of_isNameHead (c : Char) (h : isNameHead c = true) :
    isNameTail c = true := by
  unfold isNameHead at h
  unfold isNameTail
  have h' : isAsciiLower c = true ∨ c = '_' := by simpa using h
  rcases h' with h' | h' <;> simp [h']

/-- The user/group/owner name regex accepts exactly the strings that are
non-empty, start with a lowercase letter or underscore, consist only of
lowercase letters, digits, underscore and hyphen, and have at most 32
characters. -/
lemma matchUserGroupOwner_iff (name : String) :
    matchUserGroupOwner name = true ↔
      name ≠ "" ∧ (∃ c rest, name.data = c :: rest ∧ isNameHead c = true) ∧
      (∀ c ∈ name.data, isNameTail c = true) ∧ name.data.length ≤ 32 := by
  obtain ⟨l⟩ := name
  cases l with
  | nil =>
    constructor
    · intro h; exact Bool.noConfusion h
    · rintro ⟨hne, -⟩; exact absurd rfl hne
  | cons c rest =>
    constructor
    · intro h
      simp only [matchUserGroupOwner, Bool.and_eq_true, decide_eq_true_eq] at h
      obtain ⟨⟨hhead, hall⟩, hlen⟩ := h
      refine ⟨?_, ⟨c, rest, rfl, hhead⟩, ?_, ?_⟩
      · intro he
        exact List.noConfusion (congrArg String.data he)
      · intro x hx
        rcases List.mem_cons.mp hx with rfl | hx'
        · exact isNameTail_of_isNameHead x hhead
        · exact List.all_eq_true.mp hall x hx'
      · simp only [List.length_cons]
        omega
    · rintro ⟨-, ⟨c', rest', hdata, hhead⟩, hall, hlen⟩
      have hd : c :: rest = c' :: rest' := hdata
      cases hd
      simp only [matchUserGroupOwner, Bool.and_eq_true, decide_eq_true_eq]
      refine ⟨⟨hhead, ?_⟩, ?_⟩
      · exact List.all_eq_true.mpr fun x hx => hall x (List.mem_cons_of_mem _ hx)
      · have : (c :: rest).length ≤ 32 := hlen
        simp only [List.length_cons] at this
        omega

/-- The shape of `validateName` on the user/group/owner branch for a
non-empty name. -/
lemma validateName_ugo_eq (name itemType : String)
    (hlow : jsToLower itemType = "user" ∨ jsToLower itemType = "group" ∨
      jsToLower itemType = "owner")
    (hn : name ≠ "") :
    validateName name itemType =
      if !matchUserGroupOwner name then
        { isValid := false
          error := some (jsCapitalize itemType ++ " name '" ++ name ++
            "' is invalid. Must be lowercase, start with letter/underscore, max 32 chars.") }
      else { isValid := true } := by
  unfold validateName
  rw [if_neg hn, if_pos hlow]

/-- C3: for item types `user`, `group` and `owner`, `validateName` accepts a
name exactly when it is non-empty, starts with a lowercase letter or
underscore, contains only lowercase letters, digits, underscore and hyphen,
and is at most 32 characters long (the regex `^[a-z_][a-z0-9_-]{0,31}$`);
every rejection carries a non-empty error message. -/
theorem validateName_user_group_owner (name itemType : String)
    (h : itemType = "user" ∨ itemType = "group" ∨ itemType = "owner") :
    ((validateName name itemType).isValid = true ↔
      (name ≠ "" ∧ (∃ c rest, name.data = c :: rest ∧ isNameHead c = true) ∧
       (∀ c ∈ name.data, isNameTail c = true) ∧ name.data.length ≤ 32)) ∧
    ((validateName name itemType).isValid = false →
      ∃ m, (validateName name itemType).error = some m ∧ m ≠ "") := by
  have hlow : jsToLower itemType = "user" ∨ jsToLower itemType = "group" ∨
      jsToLower itemType = "owner" := by
    rcases h with rfl | rfl | rfl
    · exact Or.inl (by decide)
    · exact Or.inr (Or.inl (by decide))
    · exact Or.inr (Or.inr (by decide))
  by_cases hn : name = ""
  · subst hn
    have hv : validateName "" itemType =
        { isValid := false, error := some (itemType ++ " name is required.") } := by
      unfold validateName
      rw [if_pos rfl]
    constructor
    · rw [hv]
      constructor
      · intro hfalse; exact Bool.noConfusion hfalse
      · rintro ⟨hne, -⟩; exact absurd rfl hne
    · intro _
      rw [hv]
      exact ⟨itemType ++ " name is required.", rfl,
        append_ne_empty_right _ _ (by decide)⟩
  · have key := validateName_ugo_eq name itemType hlow hn
    by_cases hm : matchUserGroupOwner name = true
    · rw [key, if_neg (by simp [hm])]
      constructor
      · exact iff_of_true rfl ((matchUserGroupOwner_iff name).mp hm)
      · intro hfalse; exact Bool.noConfusion hfalse
    · rw [key, if_pos (by simp [Bool.eq_false_iff.mpr hm])]
      constructor
      · constructor
        · intro hfalse; exact Bool.noConfusion hfalse
        · intro hr; exact absurd ((matchUserGroupOwner_iff name).mpr hr) hm
      · intro _
        exact ⟨_, rfl, append_ne_empty_right _ _ (by decide)⟩

/-- C3 witness: `bob` is a valid user name; `Bob` is rejected as a group
name with a non-empty message. -/
theorem validateName_user_group_owner_witness :
    (validateName "bob" "user").isValid = true ∧
    (validateName "Bob" "group").isValid = false :=
  ⟨(validateName_user_group_owner "bob" "user" (Or.inl rfl)).1.mpr
     ⟨by decide, ⟨'b', ['o', 'b'], rfl, by decide⟩, by decide, by decide⟩,
   Bool.eq_false_iff.mpr fun hv => by
     obtain ⟨-, ⟨c, rest, hdata, hhead⟩, -, -⟩ :=
       (validateName_user_group_owner "Bob" "group" (Or.inr (Or.inl rfl))).1.mp hv
     have hd : ('B' :: ['o', 'b'] : List Char) = c :: rest := hdata
     cases hd
     exact absurd hhead (by decide)⟩

/-- Splitting `I ++ rest` at the first non-`p` element when all of `I`
satisfies `p` and `rest` does not start with a `p` element. -/
lemma takeWhile_dropWhile_of_all {p : Char → Bool} (I rest : List Char)
    (hI : ∀ c ∈ I, p c = true)
    (hrest : ∀ c, rest.head? = some c → p c = false) :
    (I ++ rest).takeWhile p = I ∧ (I ++ rest).dropWhile p = rest := by
  induction I with
  | nil =>
    cases rest with
    | nil => exact ⟨rfl, rfl⟩
    | cons c t =>
      have hc := hrest c rfl
      constructor
      · simp [List.takeWhile_cons, hc]
      · simp [List.dropWhile_cons, hc]
  | cons a I' ih =>
    have ha := hI a (List.mem_cons_self _ _)
    obtain ⟨h1, h2⟩ := ih fun c hc => hI c (List.mem_cons_of_mem _ hc)
    constructor
    · simp [List.takeWhile_cons, ha, h1]
    · simp [List.dropWhile_cons, ha, h2]

/-- The optional-unit matcher accepts exactly nothing or one unit letter. -/
lemma matchUnitOpt_iff (x : List Char) :
    matchUnitOpt x = true ↔ (x = [] ∨ ∃ u, x = [u] ∧ isUnitChar u = true) := by
  cases x with
  | nil => simp [matchUnitOpt]
  | cons a t =>
    cases t with
    | nil => simp [matchUnitOpt]
    | cons b t2 => simp [matchUnitOpt]

/-- A unit letter is never `'.'` (used to keep the dot branch of the quota
matcher from firing on a trailing unit). -/
lemma isUnitChar_ne_dot (u : Char) (h : isUnitChar u = true) : u ≠ '.' := by
  intro he
  subst he
  exact absurd h (by decide)

/-- The numeric alternative of the quota regex accepts exactly the strings
`digits (dot digits)? unit?`. -/
lemma matchQuotaNumList_iff (l : List Char) :
    matchQuotaNumList l = true ↔
      ∃ I F U, l = I ++ F ++ U ∧ I ≠ [] ∧ (∀ c ∈ I, isAsciiDigit c = true) ∧
        (F = [] ∨ ∃ D, F = '.' :: D ∧ D ≠ [] ∧ (∀ c ∈ D, isAsciiDigit c = true)) ∧
        (U = [] ∨ ∃ u, U = [u] ∧ isUnitChar u = true) := by
  constructor
  · intro h
    unfold matchQuotaNumList at h
    simp only [Bool.and_eq_true, Bool.not_eq_true', List.isEmpty_eq_false] at h
    obtain ⟨hds, htail⟩ := h
    have hsplit := List.takeWhile_append_dropWhile (p := isAsciiDigit) (l := l)
    have hdig : ∀ c ∈ l.takeWhile isAsciiDigit, isAsciiDigit c = true :=
      fun c hc => List.mem_takeWhile_imp hc
    cases hrest : l.dropWhile isAsciiDigit with
    | nil =>
      refine ⟨l.takeWhile isAsciiDigit, [], [], ?_, hds, hdig, Or.inl rfl, Or.inl rfl⟩
      rw [hrest] at hsplit
      simp only [List.append_nil] at hsplit
      simp [hsplit]
    | cons c r =>
      rw [hrest] at htail
      simp only [matchQuotaTail] at htail
      by_cases hc : c = '.'
      · subst hc
        rw [if_pos rfl] at htail
        simp only [Bool.and_eq_true, Bool.not_eq_true', List.isEmpty_eq_false] at htail
        obtain ⟨hds2, hunit⟩ := htail
        have hsplit2 := List.takeWhile_append_dropWhile (p := isAsciiDigit) (l := r)
        have hdig2 : ∀ c ∈ r.takeWhile isAsciiDigit, isAsciiDigit c = true :=
          fun c hc => List.mem_takeWhile_imp hc
        refine ⟨l.takeWhile isAsciiDigit, '.' :: r.takeWhile isAsciiDigit,
          r.dropWhile isAsciiDigit, ?_, hds, hdig,
          Or.inr ⟨r.takeWhile isAsciiDigit, rfl, hds2, hdig2⟩,
          (matchUnitOpt_iff _).mp hunit⟩
        have hshape : l.takeWhile isAsciiDigit ++ ('.' :: r.takeWhile isAsciiDigit) ++
            r.dropWhile isAsciiDigit =
            l.takeWhile isAsciiDigit ++
              ('.' :: (r.takeWhile isAsciiDigit ++ r.dropWhile isAsciiDigit)) := by
          simp [List.append_assoc]
        rw [hshape, hsplit2, ← hrest, hsplit]
      · rw [if_neg hc] at htail
        rcases (matchUnitOpt_iff _).mp htail with habs | ⟨u, hu, hchar⟩
        · exact absurd habs (by simp)
        · have hcu : c = u ∧ r = [] := by
            cases hu
            exact ⟨rfl, rfl⟩
          obtain ⟨rfl, rfl⟩ := hcu
          refine ⟨l.takeWhile isAsciiDigit, [], [c], ?_, hds, hdig, Or.inl rfl,
            Or.inr ⟨c, rfl, hchar⟩⟩
          simp only [List.append_nil]
          rw [← hrest, hsplit]
  · rintro ⟨I, F, U, rfl, hI, hIdig, hF, hU⟩
    unfold matchQuotaNumList
    rcases hF with rfl | ⟨D, rfl, hD, hDdig⟩
    · rcases hU with rfl | ⟨u, rfl, hu⟩
      · obtain ⟨ht, hdrop⟩ := takeWhile_dropWhile_of_all (p := isAsciiDigit) I []
          hIdig (fun c hc => by cases hc)
        simp only [List.append_nil] at ht hdrop ⊢
        simp [ht, hdrop, matchQuotaTail, hI]
      · by_cases hd : isAsciiDigit u = true
        · obtain ⟨ht, hdrop⟩ := takeWhile_dropWhile_of_all (p := isAsciiDigit)
            (I ++ [u]) [] (by
              intro c hc
              rcases List.mem_append.mp hc with hc' | hc'
              · exact hIdig c hc'
              · rw [List.mem_singleton.mp hc']; exact hd)
            (fun c hc => by cases hc)
          simp only [List.append_nil] at ht hdrop ⊢
          simp [ht, hdrop, matchQuotaTail, hI]
        · obtain ⟨ht, hdrop⟩ := takeWhile_dropWhile_of_all (p := isAsciiDigit) I [u]
            hIdig (fun c hc => by
              have hcu : c = u := (Option.some_inj.mp (show some u = some c from hc)).symm
              rw [hcu]
              exact Bool.eq_false_iff.mpr hd)
          simp only [List.append_nil] at ht hdrop ⊢
          rw [ht, hdrop]
          simp only [matchQuotaTail]
          rw [if_neg (isUnitChar_ne_dot u hu)]
          simp [matchUnitOpt, hI, hu]
    · have hhead : ∀ c, ('.' :: (D ++ U)).head? = some c → isAsciiDigit c = false := by
        intro c hc
        rw [Option.some_inj.mp hc.symm]
        decide
      obtain ⟨ht, hdrop⟩ := takeWhile_dropWhile_of_all (p := isAsciiDigit) I
        ('.' :: (D ++ U)) hIdig hhead
      have hshape : I ++ ('.' :: D) ++ U = I ++ ('.' :: (D ++ U)) := by
        simp [List.append_assoc]
      rw [hshape, ht, hdrop]
      simp only [matchQuotaTail]
      rw [if_pos trivial]
      rcases hU with rfl | ⟨u, rfl, hu⟩
      · obtain ⟨ht2, hdrop2⟩ := takeWhile_dropWhile_of_all (p := isAsciiDigit) D []
          hDdig (fun c hc => by cases hc)
        simp only [List.append_nil] at ht2 hdrop2
        simp [ht2, hdrop2, matchUnitOpt, hI, hD]
      · by_cases hd : isAsciiDigit u = true
        · obtain ⟨ht2, hdrop2⟩ := takeWhile_dropWhile_of_all (p := isAsciiDigit)
            (D ++ [u]) [] (by
              intro c hc
              rcases List.mem_append.mp hc with hc' | hc'
              · exact hDdig c hc'
              · rw [List.mem_singleton.mp hc']; exact hd)
            (fun c hc => by cases hc)
          simp only [List.append_nil] at ht2 hdrop2
          simp [ht2, hdrop2, matchUnitOpt, hI, hD]
        · obtain ⟨ht2, hdrop2⟩ := takeWhile_dropWhile_of_all (p := isAsciiDigit) D [u]
            hDdig (fun c hc => by
              have hcu : c = u := (Option.some_inj.mp (show some u = some c from hc)).symm
              rw [hcu]
              exact Bool.eq_false_iff.mpr hd)
          simp [ht2, hdrop2, matchUnitOpt, hI, hD, hu]

/-- C4: `validateQuota` accepts exactly the empty string, `none` (in any
letter case), and a digit run optionally followed by a dot and another
digit run and by at most one unit letter from `kmgtpez` (either case). -/
theorem validateQuota_characterization (quota : String) :
    (validateQuota quota).isValid = true ↔
      quota = "" ∨ jsToLower quota = "none" ∨
      (∃ I F U, quota.data = I ++ F ++ U ∧ I ≠ [] ∧
        (∀ c ∈ I, isAsciiDigit c = true) ∧
        (F = [] ∨ ∃ D, F = '.' :: D ∧ D ≠ [] ∧ (∀ c ∈ D, isAsciiDigit c = true)) ∧
        (U = [] ∨ ∃ u, U = [u] ∧ isUnitChar u = true)) := by
  by_cases hq : quota = ""
  · subst hq
    exact iff_of_true rfl (Or.inl rfl)
  · unfold validateQuota
    rw [if_neg hq]
    by_cases hm : matchQuota quota = true
    · rw [if_neg (by simp [hm])]
      refine iff_of_true rfl ?_
      unfold matchQuota at hm
      rcases Bool.or_eq_true_iff.mp hm with h | h
      · exact Or.inr (Or.inl (by simpa using h))
      · exact Or.inr (Or.inr ((matchQuotaNumList_iff _).mp h))
    · rw [if_pos (by simp [Bool.eq_false_iff.mpr hm])]
      constructor
      · intro hfalse; exact Bool.noConfusion hfalse
      · rintro (h | h | h)
        · exact absurd h hq
        · exact absurd (by unfold matchQuota; simp [h]) hm
        · refine absurd ?_ hm
          unfold matchQuota
          simp [(matchQuotaNumList_iff _).mpr h]

/-- C4 witness: `1.5T` is accepted, `abc` is rejected. -/
theorem validateQuota_characterization_witness :
    (validateQuota "1.5T").isValid = true ∧ (validateQuota "abc").isValid = false :=
  ⟨(validateQuota_characterization "1.5T").mpr
     (Or.inr (Or.inr ⟨['1'], ['.', '5'], ['T'], rfl, by decide, by decide,
       Or.inr ⟨['5'], rfl, by decide, by decide⟩, Or.inr ⟨'T', rfl, by decide⟩⟩)),
   Bool.eq_false_iff.mpr fun hv => by
     rcases (validateQuota_characterization "abc").mp hv with h | h | ⟨I, F, U, hd, hI, hdig, -, -⟩
     · exact absurd h (by decide)
     · exact absurd h (by decide)
     · cases I with
       | nil => exact hI rfl
       | cons c I' =>
         have hd' : ('a' :: 'b' :: 'c' :: [] : List Char) = c :: (I' ++ F ++ U) := by
           simpa [List.cons_append, List.append_assoc] using hd
         injection hd' with h1 _
         have hdigc := hdig c (List.mem_cons_self _ _)
         rw [← h1] at hdigc
         exact absurd hdigc (by decide)⟩

/-- The user-list loop accepts exactly the lists all of whose entries pass
`validateName` under the `@`-stripping rule. -/
lemma validateUserListLoop_valid_iff (l : List String) :
    (validateUserListLoop l).isValid = true ↔
      ∀ u ∈ l, (validateName (entryName u) (entryType u)).isValid = true := by
  induction l with
  | nil => simp [validateUserListLoop]
  | cons u rest ih =>
    simp only [validateUserListLoop]
    by_cases hv : (validateName (entryName u) (entryType u)).isValid = true
    · rw [if_pos hv]
      constructor
      · intro h x hx
        rcases List.mem_cons.mp hx with rfl | hx'
        · exact hv
        · exact ih.mp h x hx'
      · intro h
        exact ih.mpr fun x hx => h x (List.mem_cons_of_mem _ hx)
    · rw [if_neg hv]
      constructor
      · intro hfalse; exact Bool.noConfusion hfalse
      · intro h; exact absurd (h u (List.mem_cons_self _ _)) hv

/-- When the user-list loop rejects, the first failing entry determines the
error message. -/
lemma validateUserListLoop_error (l : List String)
    (h : (validateUserListLoop l).isValid = false) :
    ∃ pre u post, l = pre ++ u :: post ∧
      (∀ v ∈ pre, (validateName (entryName v) (entryType v)).isValid = true) ∧
      (validateName (entryName u) (entryType u)).isValid = false ∧
      (validateUserListLoop l).error =
        some ("Invalid " ++ entryType u ++ " in list: " ++
          (validateName (entryName u) (entryType u)).error.getD "") := by
  induction l with
  | nil => exact absurd h (by decide)
  | cons u rest ih =>
    simp only [validateUserListLoop] at h ⊢
    by_cases hv : (validateName (entryName u) (entryType u)).isValid = true
    · rw [if_pos hv] at h ⊢
      obtain ⟨pre, x, post, rfl, hpre, hx, herr⟩ := ih h
      refine ⟨u :: pre, x, post, rfl, ?_, hx, herr⟩
      intro v hv'
      rcases List.mem_cons.mp hv' with rfl | hv''
      · exact hv
      · exact hpre v hv''
    · rw [if_neg hv] at h ⊢
      exact ⟨[], u, rest, rfl, fun v hv' => absurd hv' (List.not_mem_nil v),
        Bool.eq_false_iff.mpr hv, rfl⟩

/-- C5: `validateUserList` accepts exactly the empty string and the strings
all of whose comma-separated, trimmed, non-empty entries pass `validateName`
— as a group name with the leading `@` stripped, as a user name otherwise;
on rejection the first failing entry determines the returned error. -/
theorem validateUserList_characterization (users : String) :
    ((validateUserList users).isValid = true ↔
      (users = "" ∨ ∀ u ∈ userListEntries users,
        (validateName (entryName u) (entryType u)).isValid = true)) ∧
    ((validateUserList users).isValid = false →
      ∃ pre u post, userListEntries users = pre ++ u :: post ∧
        (∀ v ∈ pre, (validateName (entryName v) (entryType v)).isValid = true) ∧
        (validateName (entryName u) (entryType u)).isValid = false ∧
        (validateUserList users).error =
          some ("Invalid " ++ entryType u ++ " in list: " ++
            (validateName (entryName u) (entryType u)).error.getD "")) := by
  by_cases hu : users = ""
  · subst hu
    constructor
    · exact iff_of_true rfl (Or.inl rfl)
    · intro hfalse; exact absurd hfalse (by decide)
  · have hve : validateUserList users = validateUserListLoop (userListEntries users) := by
      unfold validateUserList
      rw [if_neg hu]
    rw [hve]
    constructor
    · rw [validateUserListLoop_valid_iff]
      constructor
      · exact Or.inr
      · rintro (h | h)
        · exact absurd h hu
        · exact h
    · exact validateUserListLoop_error _

/-- C5 witness: `alice, @staff` is accepted; in `alice,9bad` the entry
`9bad` is rejected as a user name. -/
theorem validateUserList_characterization_witness :
    (validateUserList "alice, @staff").isValid = true ∧
    (validateUserList "alice,9bad").isValid = false :=
  ⟨(validateUserList_characterization "alice, @staff").1.mpr (Or.inr (by decide)),
   Bool.eq_false_iff.mpr fun hv => by
     rcases (validateUserList_characterization "alice,9bad").1.mp hv with h | h
     · exact absurd h (by decide)
     · exact absurd (h "9bad" (by decide)) (by decide)⟩

/-- C1 (code bug): for a child output that parses as a JSON object with a
truthy `error` field, the `throw new Error(result.error)` inside the `try`
block of `smbZfsApi.run` is intercepted by the `catch` of that same block; since
the raw output does not start with `error:`, the current variant then
*fulfills* the promise with the raw output string instead of rejecting with
the error message, and the older variant rejects with
`"An unexpected error occurred: " + output` instead of the error message. -/
theorem run_error_field_swallowed :
    c1Parse c1Output = some c1Json ∧
    c1Json.getF "error" = some (.str c1Error) ∧
    jsTruthy (.str c1Error) = true ∧
    runThen c1Parse c1Output = .fulfilledStr c1Output ∧
    RunOutcome.fulfilledStr c1Output ≠ .rejected c1Error ∧
    runThenOld c1Parse c1Output =
      .rejected ("An unexpected error occurred: " ++ c1Output) ∧
    "An unexpected error occurred: " ++ c1Output ≠ c1Error :=
  ⟨rfl, rfl, by decide, rfl,
   fun h => RunOutcome.noConfusion h, rfl, by decide⟩

/-! ### C7: `refreshState` normalization -/

/-- C7 counterexample: the `users` field of `c7Data` is present (with value
`null`), yet the normalized state holds the empty record, not the original
value — `|| {}` defaults on every falsy value, not only on absent ones. -/
theorem normalizeState_pass_through_counterexample :
    getFOpt (some c7Data) "users" = some Json.null ∧
    (normalizeState (some c7Data)).users = Json.obj [] ∧
    Json.obj [] ≠ Json.null :=
  ⟨rfl, rfl, fun h => Json.noConfusion h⟩

/-- A defined-and-truthy witness characterizes `jsTruthyOpt`. -/
lemma jsTruthyOpt_eq_true_iff (x : Option Json) :
    jsTruthyOpt x = true ↔ ∃ j, x = some j ∧ jsTruthy j = true := by
  cases x <;> simp [jsTruthyOpt]

/-- `x || d` keeps a defined truthy value. -/
lemma jsOrDefault_of_truthy (x : Option Json) (d j : Json) (h : x = some j)
    (ht : jsTruthy j = true) : jsOrDefault x d = j := by
  subst h
  simp [jsOrDefault, ht]

/-- `x || d` falls back to the default on `undefined` or falsy values. -/
lemma jsOrDefault_of_falsy (x : Option Json) (d : Json)
    (h : jsTruthyOpt x = false) : jsOrDefault x d = d := by
  cases x with
  | none => rfl
  | some j =>
    have hj : jsTruthy j = false := h
    simp [jsOrDefault, hj]

/-- C7 amended: in the state stored by `refreshState`, `initialized` and
`macos_optimized` are boolean coercions; the string fields default to `""`
when falsy and are passed through when truthy; `users`, `groups` and
`shares` default to the empty record when absent **or otherwise falsy**
(e.g. `null`) and are passed through when truthy; `secondary_pools` is
passed through exactly when it is an array and defaults to `[]` otherwise. -/
theorem normalizeState_characterization (data : Option Json) :
    ((normalizeState data).initialized = true ↔
      ∃ j, getFOpt data "initialized" = some j ∧ jsTruthy j = true) ∧
    ((normalizeState data).macos_optimized = true ↔
      ∃ j, getFOpt data "macos_optimized" = some j ∧ jsTruthy j = true) ∧
    (∀ j, getFOpt data "primary_pool" = some j → jsTruthy j = true →
      (normalizeState data).primary_pool = j) ∧
    (jsTruthyOpt (getFOpt data "primary_pool") = false →
      (normalizeState data).primary_pool = .str "") ∧
    (∀ j, getFOpt data "server_name" = some j → jsTruthy j = true →
      (normalizeState data).server_name = j) ∧
    (jsTruthyOpt (getFOpt data "server_name") = false →
      (normalizeState data).server_name = .str "") ∧
    (∀ j, getFOpt data "workgroup" = some j → jsTruthy j = true →
      (normalizeState data).workgroup = j) ∧
    (jsTruthyOpt (getFOpt data "workgroup") = false →
      (normalizeState data).workgroup = .str "") ∧
    (∀ j, getFOpt data "default_home_quota" = some j → jsTruthy j = true →
      (normalizeState data).default_home_quota = j) ∧
    (jsTruthyOpt (getFOpt data "default_home_quota") = false →
      (normalizeState data).default_home_quota = .str "") ∧
    (∀ j, getFOpt data "users" = some j → jsTruthy j = true →
      (normalizeState data).users = j) ∧
    (jsTruthyOpt (getFOpt data "users") = false →
      (normalizeState data).users = .obj []) ∧
    (∀ j, getFOpt data "groups" = some j → jsTruthy j = true →
      (normalizeState data).groups = j) ∧
    (jsTruthyOpt (getFOpt data "groups") = false →
      (normalizeState data).groups = .obj []) ∧
    (∀ j, getFOpt data "shares" = some j → jsTruthy j = true →
      (normalizeState data).shares = j) ∧
    (jsTruthyOpt (getFOpt data "shares") = false →
      (normalizeState data).shares = .obj []) ∧
    (∀ a, getFOpt data "secondary_pools" = some (.arr a) →
      (normalizeState data).secondary_pools = .arr a) ∧
    ((∀ j, getFOpt data "secondary_pools" = some j → j.isArr = false) →
      (normalizeState data).secondary_pools = .arr []) := by
  refine ⟨jsTruthyOpt_eq_true_iff _, jsTruthyOpt_eq_true_iff _,
    fun j h ht => jsOrDefault_of_truthy _ _ _ h ht,
    fun h => jsOrDefault_of_falsy _ _ h,
    fun j h ht => jsOrDefault_of_truthy _ _ _ h ht,
    fun h => jsOrDefault_of_falsy _ _ h,
    fun j h ht => jsOrDefault_of_truthy _ _ _ h ht,
    fun h => jsOrDefault_of_falsy _ _ h,
    fun j h ht => jsOrDefault_of_truthy _ _ _ h ht,
    fun h => jsOrDefault_of_falsy _ _ h,
    fun j h ht => jsOrDefault_of_truthy _ _ _ h ht,
    fun h => jsOrDefault_of_falsy _ _ h,
    fun j h ht => jsOrDefault_of_truthy _ _ _ h ht,
    fun h => jsOrDefault_of_falsy _ _ h,
    fun j h ht => jsOrDefault_of_truthy _ _ _ h ht,
    fun h => jsOrDefault_of_falsy _ _ h,
    fun a h => ?_, fun h => ?_⟩
  · show (match getFOpt data "secondary_pools" with
      | some j => if j.isArr then j else Json.arr []
      | none => Json.arr []) = Json.arr a
    rw [h]
    simp [Json.isArr]
  · show (match getFOpt data "secondary_pools" with
      | some j => if j.isArr then j else Json.arr []
      | none => Json.arr []) = Json.arr []
    cases hsp : getFOpt data "secondary_pools" with
    | none => rfl
    | some j =>
      have hnj := h j hsp
      simp [hnj]

/-- C7 amended witness: a truthy `users` record is passed through; a
non-array `secondary_pools` is replaced by the empty array. -/
theorem normalizeState_characterization_witness :
    (normalizeState (some (.obj [("users", .obj [("bob", .obj [])])]))).users =
      .obj [("bob", .obj [])] ∧
    (normalizeState (some (.obj [("secondary_pools", .str "x")]))).secondary_pools =
      .arr [] :=
  ⟨(normalizeState_characterization
      (some (.obj [("users", .obj [("bob", .obj [])])]))).2.2.2.2.2.2.2.2.2.2.1
      (.obj [("bob", .obj [])]) rfl rfl,
   (normalizeState_characterization
      (some (.obj [("secondary_pools", .str "x")]))).2.2.2.2.2.2.2.2.2.2.2.2.2.2.2.2.2
      (fun j h => by
        have hj : Json.str "x" = j := Option.some_inj.mp h
        rw [← hj]
        rfl)⟩

/-! ### C8: the Change Password modal -/

/-- C8 counterexample: a reachable state of the Change Password modal in
which the modal is not loading, the new password is non-empty, and the
confirm field equals it — yet `isFormValid()` is false and the Set Password
button stays disabled, because the stored validation of the confirm field is
stale. -/
theorem changePassword_enabled_counterexample :
    (cpRun cpCexEvents).loading = false ∧
    (cpRun cpCexEvents).password.value = "y" ∧
    (cpRun cpCexEvents).confirm.value = "y" ∧
    (cpRun cpCexEvents).password.value ≠ "" ∧
    cpEnabled (cpRun cpCexEvents) = false :=
  ⟨rfl, rfl, rfl, by decide, by decide⟩

/-- One event preserves the invariant "a non-empty password field carries a
valid stored verdict". -/
lemma cpStep_preserves_pw (s : CPState) (e : CPEvent)
    (hs : s.password.value ≠ "" → s.password.validation.isValid = true) :
    (cpStep s e).password.value ≠ "" →
      (cpStep s e).password.validation.isValid = true := by
  cases e with
  | pwChange v =>
    intro hne
    have hv : v ≠ "" := hne
    show (pwValidator v).isValid = true
    unfold pwValidator validatePassword
    rw [if_neg hv]
  | confirmChange v => exact hs
  | pwBlur =>
    intro hne
    have hv : s.password.value ≠ "" := hne
    show (pwValidator s.password.value).isValid = true
    unfold pwValidator validatePassword
    rw [if_neg hv]
  | confirmBlur => exact hs
  | loadStart => exact hs
  | loadEnd => exact hs

/-- In every reachable state of the modal, a non-empty password field
carries a valid stored verdict. -/
lemma cpRun_password_valid (evs : List CPEvent) :
    (cpRun evs).password.value ≠ "" →
      (cpRun evs).password.validation.isValid = true := by
  have main : ∀ (l : List CPEvent) (s : CPState),
      (s.password.value ≠ "" → s.password.validation.isValid = true) →
      ((l.foldl cpStep s).password.value ≠ "" →
        (l.foldl cpStep s).password.validation.isValid = true) := by
    intro l
    induction l with
    | nil => exact fun s hs => hs
    | cons e rest ih => exact fun s hs => ih (cpStep s e) (cpStep_preserves_pw s e hs)
  exact main evs cpInit fun hne => absurd rfl hne

/-- C8 amended: in every reachable state, the Set Password action is enabled
iff the modal is not loading, the new password is non-empty, the confirm
field equals it, **and the stored validation of the confirm field is valid** —
the last condition can lag one password edit behind, because the
re-validation fired by a password edit still sees the pre-edit password;
and whenever `isFormValid()` holds, save spawns exactly
`smb-zfs passwd <user> --json` with `superuser: "require"` and writes the
password followed by a newline twice to its stdin. -/
theorem changePassword_enabled_amended :
    (∀ evs : List CPEvent,
      cpEnabled (cpRun evs) = true ↔
        ((cpRun evs).loading = false ∧ (cpRun evs).password.value ≠ "" ∧
         (cpRun evs).confirm.value = (cpRun evs).password.value ∧
         (cpRun evs).confirm.validation.isValid = true)) ∧
    (∀ (s : CPState) (user : String), cpFormValid s = true →
      cpHandleSave s user = some
        { argv := ["smb-zfs", "passwd", user, "--json"]
          superuser := some "require"
          stdin := some ((s.password.value ++ "\n") ++ (s.password.value ++ "\n")) }) := by
  constructor
  · intro evs
    simp only [cpEnabled, cpFormValid, HookState.isValidExposed, Bool.and_eq_true,
      Bool.not_eq_true', decide_eq_true_eq]
    constructor
    · rintro ⟨hload, ⟨⟨hpv, hcv⟩, hne⟩, heq⟩
      exact ⟨hload, hne, heq.symm, hcv⟩
    · rintro ⟨hload, hne, heq, hcv⟩
      exact ⟨hload, ⟨⟨cpRun_password_valid evs hne, hcv⟩, hne⟩, heq.symm⟩
  · intro s user h
    unfold cpHandleSave
    rw [if_pos h]
    simp [String.append_assoc]

/-- C8 amended witness: after typing matching passwords in both fields the
button is enabled, and saving spawns `smb-zfs passwd bob --json` with the
password written twice, newline-terminated, to stdin. -/
theorem changePassword_enabled_amended_witness :
    cpEnabled (cpRun [CPEvent.pwChange "a", CPEvent.confirmChange "a"]) = true ∧
    cpHandleSave (cpRun [CPEvent.pwChange "a", CPEvent.confirmChange "a"]) "bob" = some
      { argv := ["smb-zfs", "passwd", "bob", "--json"]
        superuser := some "require"
        stdin := some (("a" ++ "\n") ++ ("a" ++ "\n")) } :=
  ⟨(changePassword_enabled_amended.1 [CPEvent.pwChange "a", CPEvent.confirmChange "a"]).mpr
     ⟨rfl, by decide, rfl, by decide⟩,
   (changePassword_enabled_amended.2
      (cpRun [CPEvent.pwChange "a", CPEvent.confirmChange "a"]) "bob" (by decide)).trans
     (by decide)⟩

end SmbZfs
